import Mathlib

/-!
# filtered_ct_clamp sensor: sampling window, low-pass filter and RMS computation

Shallow embedding of `components/filtered_ct_clamp/sensor/filtered_ct_clamp_sensor.cpp`.

Numbers.  The C++ `float` and `double` values are embedded in a linearly ordered
field `α` (exact arithmetic, conversions between the two widths are the identity).
The definitions are computable whenever the field is (for instance `ℚ`).  The only
not-a-number values the code itself tests for or produces are the reading returned by
`source_->sample()` and the argument of `publish_state`; both are embedded as a
`Reading`, which is either `nan` or a number.

Header.  `filtered_ct_clamp_sensor.h` is not part of the sources.  The macros
`CUTOFF`, `SAMPLE_RATE` and `MIN_CURRENT` it defines are fields of `Config`, as is the
library function `std::sqrt`.  The members it declares are the fields of `State`.

Logging.  The text of the log lines is not part of the embedding, but the evaluation of
their arguments is: the two numeric branches of the timeout callback compute
`1000 * num_samples_ / sample_duration_`, an integer division that traps when
`sample_duration_` is `0`.  A trap is embedded as the result `none`.
-/

namespace FilteredCtClamp

/-- A `float` as the code observes it through `std::isnan`: `NAN` or a number. -/
inductive Reading (α : Type) where
  | nan : Reading α
  | num (v : α) : Reading α
  deriving DecidableEq

/-- Modelled from the spec: the constants of the missing header (`cutoff_frequency`,
`sample_rate`, `minimum_current_threshold`, `sample_duration`), together with the
library square root used by the timeout callback. -/
structure Config (α : Type) where
  /-- the macro `CUTOFF` -/
  CUTOFF : α
  /-- the macro `SAMPLE_RATE` -/
  SAMPLE_RATE : α
  /-- the macro `MIN_CURRENT` -/
  MIN_CURRENT : α
  /-- the member `sample_duration_` (milliseconds) -/
  sample_duration_ : Nat
  /-- the library function `std::sqrt` -/
  sqrt : α → α

/-- Modelled from the spec: the members of `CTClampFilteredSensor` declared in the
missing header (`num_samples_` is the spec's `sample_count`, a count of accepted
samples; the width of the counter is fixed by that header, and it is embedded as an
unbounded natural number), the function-local static `g_prevOutput` of
`lowPassFilter`, and two logs of
the calls made to the environment: `published` lists the arguments of `publish_state`
(oldest first) and `read_timeouts` the delays passed to `set_timeout("read", ...)`. -/
structure State (α : Type) where
  is_sampling_ : Bool
  /-- whether `high_freq_` currently requests the fast loop -/
  high_freq_ : Bool
  last_value_ : α
  num_samples_ : Nat
  sample_sum_ : α
  sample_squared_sum_ : α
  g_prevOutput : α
  published : List (Reading α)
  read_timeouts : List Nat

variable {α : Type} [LinearOrderedField α]

/-- The static `RC` of `lowPassFilter`: `1.0 / (CUTOFF * 2 * 3.1415)`. -/
def RC (cfg : Config α) : α := 1 / (cfg.CUTOFF * 2 * 3.1415)

/-- The static `dt` of `lowPassFilter`: `1.0 / SAMPLE_RATE`. -/
def dt (cfg : Config α) : α := 1 / cfg.SAMPLE_RATE

/-- The static `alpha` of `lowPassFilter`: `dt / (RC + dt)`. -/
def alpha (cfg : Config α) : α := dt cfg / (RC cfg + dt cfg)

/-- `CTClampFilteredSensor::lowPassFilter`: returns the output and the state in which
`g_prevOutput` holds that output. -/
def lowPassFilter (cfg : Config α) (st : State α) (input : α) : α × State α :=
  let output := st.g_prevOutput + (alpha cfg * (input - st.g_prevOutput))
  (output, { st with g_prevOutput := output })

/-- `publish_state(x)`: one more entry in the log of published values. -/
def publish_state (st : State α) (x : Reading α) : State α :=
  { st with published := st.published ++ [x] }

/-- The local `rms_ac_dc_squared` of the timeout callback. -/
def rms_ac_dc_squared (st : State α) : α := st.sample_squared_sum_ / (st.num_samples_ : α)

/-- The local `rms_dc` of the timeout callback. -/
def rms_dc (st : State α) : α := st.sample_sum_ / (st.num_samples_ : α)

/-- The local `rms_diff` of the timeout callback: the argument handed to `std::sqrt`. -/
def rms_diff (st : State α) : α :=
  if rms_ac_dc_squared st > rms_dc st * rms_dc st
  then rms_ac_dc_squared st - rms_dc st * rms_dc st
  else 0

/-- The local `rms_ac` of the timeout callback. -/
def rms_ac (cfg : Config α) (st : State α) : α := cfg.sqrt (rms_diff st)

/-- The argument `1000 * num_samples_ / sample_duration_` that each numeric branch of
the timeout callback evaluates for its log line, before it calls `publish_state`: an
integer division, which traps (`none`) when `sample_duration_` is `0`.  The quotient is
only printed. -/
def samples_per_second (cfg : Config α) (st : State α) : Option Nat :=
  if cfg.sample_duration_ = 0 then none
  else some (1000 * st.num_samples_ / cfg.sample_duration_)

/-- The callback that `update` hands to `set_timeout("read", ...)`; the spec calls it
`finish_window`.  The result is `none` when the callback traps on the division of its
log line, and otherwise the state it leaves. -/
def finish_window (cfg : Config α) (st : State α) : Option (State α) :=
  let st1 := { st with is_sampling_ := false, high_freq_ := false }
  if st1.num_samples_ = 0 then
    some (publish_state st1 Reading.nan)
  else
    if rms_ac cfg st1 < cfg.MIN_CURRENT then
      match samples_per_second cfg st1 with
      | none => none
      | some _ => some (publish_state st1 (Reading.num (rms_ac cfg st1 / 10)))
    else
      match samples_per_second cfg st1 with
      | none => none
      | some _ => some (publish_state st1 (Reading.num (rms_ac cfg st1)))

/-- `CTClampFilteredSensor::update`; the spec calls it `start_window`. -/
def update (cfg : Config α) (st : State α) : State α :=
  { st with
    high_freq_ := true
    read_timeouts := st.read_timeouts ++ [cfg.sample_duration_]
    last_value_ := 0
    num_samples_ := 0
    sample_sum_ := 0
    sample_squared_sum_ := 0
    is_sampling_ := true }

/-- `CTClampFilteredSensor::loop`; the spec calls it `poll_sample`.  `source_` is `none`
for a null `source_` pointer and `some r` when `source_->sample()` returns `r`. -/
def loop (cfg : Config α) (st : State α) (source_ : Option (Reading α)) : State α :=
  if !st.is_sampling_ then st
  else
    match source_ with
    | none => st
    | some Reading.nan => st
    | some (Reading.num value) =>
      if st.last_value_ = value then st
      else
        let st1 := { st with last_value_ := value }
        let r := lowPassFilter cfg st1 value
        let value1 := r.1
        let st2 := r.2
        { st2 with
          num_samples_ := st2.num_samples_ + 1
          sample_sum_ := st2.sample_sum_ + value1
          sample_squared_sum_ := st2.sample_squared_sum_ + value1 * value1 }

/-- Successive calls of `loop`, one for each reading that `source_->sample()` returns,
in order. -/
def poll_all (cfg : Config α) (st : State α) (rs : List (Reading α)) : State α :=
  rs.foldl (fun s r => loop cfg s (some r)) st

/-- The state of a freshly constructed sensor: nothing sampled, nothing published, the
static `g_prevOutput` at its initial value `0`. -/
def initial : State α :=
  { is_sampling_ := false, high_freq_ := false, last_value_ := 0, num_samples_ := 0,
    sample_sum_ := 0, sample_squared_sum_ := 0, g_prevOutput := 0,
    published := [], read_timeouts := [] }

/-- A concrete configuration over `ℚ`, with the rational square root of Mathlib. -/
def cfgQ : Config ℚ :=
  { CUTOFF := 100, SAMPLE_RATE := 1000, MIN_CURRENT := 1 / 10, sample_duration_ := 200,
    sqrt := Rat.sqrt }

/-- A window with one accepted sample whose sums are `sum = 3`, `sum_of_squares = 2`. -/
def stClamp : State ℚ :=
  { is_sampling_ := true, high_freq_ := true, last_value_ := 3, num_samples_ := 1,
    sample_sum_ := 3, sample_squared_sum_ := 2, g_prevOutput := 3,
    published := [], read_timeouts := [200] }

/-- A configuration over `ℚ` whose minimum-current threshold is `1 / 2`. -/
def cfgHalf : Config ℚ :=
  { CUTOFF := 100, SAMPLE_RATE := 1000, MIN_CURRENT := 1 / 2, sample_duration_ := 200,
    sqrt := Rat.sqrt }

/-- A window with two accepted samples, `sum = 0` and `sum_of_squares = 2`: its
variance is `1`. -/
def stUnit : State ℚ :=
  { is_sampling_ := true, high_freq_ := true, last_value_ := 1, num_samples_ := 2,
    sample_sum_ := 0, sample_squared_sum_ := 2, g_prevOutput := 1,
    published := [], read_timeouts := [200] }

/-- A sampling window in progress over `ℚ`: two samples accepted so far, the last raw
reading being `1`. -/
def stBusy : State ℚ :=
  { is_sampling_ := true, high_freq_ := true, last_value_ := 1, num_samples_ := 2,
    sample_sum_ := 3, sample_squared_sum_ := 5, g_prevOutput := 2,
    published := [], read_timeouts := [200] }

/-- Two different readings, the first of which is `0`. -/
def rsZeroFirst : List (Reading ℚ) := [Reading.num 0, Reading.num 1]

/-- Three readings: no `NAN`, no two consecutive ones equal, the first one not `0`. -/
def rsVarying : List (Reading ℚ) := [Reading.num 1, Reading.num 2, Reading.num 1]

/-- A single reading, the number `1`. -/
def rsSingle : List (Reading ℚ) := [Reading.num 1]

/-- The window `stUnit` seen from outside a sampling phase, with another last raw value
and another filter state; the two sums and the count are those of `stUnit`. -/
def stUnitIdle : State ℚ :=
  { is_sampling_ := false, high_freq_ := true, last_value_ := 7, num_samples_ := 2,
    sample_sum_ := 0, sample_squared_sum_ := 2, g_prevOutput := 9,
    published := [], read_timeouts := [200] }

/-- Successive calls of `lowPassFilter`, one for each input of the list, in order: the
state after the last call. -/
def lowPassFilter_all (cfg : Config α) (st : State α) (xs : List α) : State α :=
  xs.foldl (fun s x => (lowPassFilter cfg s x).2) st

/-- The values returned by successive calls of `lowPassFilter`, one for each input of
the list, in order. -/
def lowPassFilter_outputs (cfg : Config α) : State α → List α → List α
  | _, [] => []
  | st, x :: xs =>
    (lowPassFilter cfg st x).1 :: lowPassFilter_outputs cfg (lowPassFilter cfg st x).2 xs

/-- The configuration `CUTOFF = 100`, `SAMPLE_RATE = 1000`, threshold `1 / 10` over any
field, for a given square root on that field. -/
def cfgOver (sqrt : α → α) : Config α :=
  { CUTOFF := 100, SAMPLE_RATE := 1000, MIN_CURRENT := 1 / 10, sample_duration_ := 200,
    sqrt := sqrt }

/-- Four calls of `loop`: no source, the numbers `1` and `2`, and `NAN`. -/
def srcsMixed : List (Option (Reading ℚ)) :=
  [none, some (Reading.num 1), some (Reading.num 2), some Reading.nan]

/-- Specification side: the filtered values `f_1 .. f_n` of the samples a window
accepts, for a filter coefficient `a`, the last raw value `last` and the previous
filter output `prev` at the point where the readings start.  A `NAN` reading and a
reading equal to the last raw value are dropped; any other reading `v` becomes the
last raw value and contributes `f = prev + a * (v - prev)`, which becomes the previous
output. -/
def spec_filtered_values (a : α) : α → α → List (Reading α) → List α
  | _, _, [] => []
  | last, prev, Reading.nan :: rs => spec_filtered_values a last prev rs
  | last, prev, Reading.num v :: rs =>
    if v = last then spec_filtered_values a last prev rs
    else (prev + a * (v - prev)) :: spec_filtered_values a v (prev + a * (v - prev)) rs

/-- Specification side: the mean `m = (1 / n) * sum_i f_i` of a list of values. -/
def spec_mean (fs : List α) : α := 1 / (fs.length : α) * fs.sum

/-- Specification side: the population variance `(1 / n) * sum_i (f_i - m)^2` of a list
of values, computed in two passes (first the mean `m`, then the squared deviations). -/
def spec_population_variance (fs : List α) : α :=
  1 / (fs.length : α) * (fs.map (fun f => (f - spec_mean fs) ^ 2)).sum

/-- Readings that are `0` or `NAN` only. -/
def rsZeroNan : List (Reading ℚ) := [Reading.num 0, Reading.nan, Reading.num 0]

/-- The configuration `cfgQ` with `sample_duration_ = 0`. -/
def cfgNoDuration : Config ℚ :=
  { CUTOFF := 100, SAMPLE_RATE := 1000, MIN_CURRENT := 1 / 10, sample_duration_ := 0,
    sqrt := Rat.sqrt }

/-! ## The timeout callback -/

/-- The argument handed to `std::sqrt` is the variance clamped at zero. -/
theorem rms_diff_eq_max (st : State α) :
    rms_diff st = max 0 (st.sample_squared_sum_ / (st.num_samples_ : α)
      - (st.sample_sum_ / (st.num_samples_ : α)) ^ 2) := by
  unfold rms_diff rms_ac_dc_squared rms_dc
  rw [sq]
  split_ifs with h
  · rw [max_eq_right]
    linarith
  · rw [max_eq_left]
    linarith [not_lt.mp h]

/-- The callback reads only the sums and the count: the two flags it clears first do
not enter `rms_ac`. -/
theorem rms_ac_flags (cfg : Config α) (st : State α) (b c : Bool) :
    rms_ac cfg { st with is_sampling_ := b, high_freq_ := c } = rms_ac cfg st := rfl

/-- What the callback does for a window with at least one sample: it traps when
`sample_duration_` is `0`, and otherwise publishes one number. -/
theorem finish_window_of_pos (cfg : Config α) (st : State α) (hn : 0 < st.num_samples_) :
    finish_window cfg st =
      if cfg.sample_duration_ = 0 then none
      else some
        { st with
          is_sampling_ := false
          high_freq_ := false
          published := st.published ++
            [Reading.num (if rms_ac cfg st < cfg.MIN_CURRENT then rms_ac cfg st / 10
                          else rms_ac cfg st)] } := by
  unfold finish_window publish_state samples_per_second
  simp only [rms_ac_flags]
  rw [if_neg (Nat.pos_iff_ne_zero.mp hn)]
  by_cases hd : cfg.sample_duration_ = 0
  · simp only [hd, if_true, ite_self]
  · simp only [hd, if_false]
    split_ifs <;> rfl

/-- The log of published values after a window with at least one sample. -/
theorem finish_window_published_of_pos (cfg : Config α) (st : State α)
    (hn : 0 < st.num_samples_) :
    (finish_window cfg st).map State.published =
      if cfg.sample_duration_ = 0 then none
      else some (st.published ++
        [Reading.num (if rms_ac cfg st < cfg.MIN_CURRENT then rms_ac cfg st / 10
                      else rms_ac cfg st)]) := by
  rw [finish_window_of_pos cfg st hn]
  by_cases hd : cfg.sample_duration_ = 0
  · simp only [hd, if_true, Option.map_none']
  · simp only [hd, if_false, Option.map_some']

/-- What the callback does for a window without samples. -/
theorem finish_window_of_zero (cfg : Config α) (st : State α) (h0 : st.num_samples_ = 0) :
    finish_window cfg st =
      some
        { st with
          is_sampling_ := false
          high_freq_ := false
          published := st.published ++ [Reading.nan] } := by
  unfold finish_window publish_state
  rw [if_pos h0]

/-- C1: for a state with `sample_count = n > 0` the timeout callback publishes the
minimum-value policy applied to `rms_ac = sqrt (max 0 (sum_of_squares / n - (sum / n)^2))`
(unless `sample_duration_` is `0`, in which case it traps on its log line);
the argument handed to the square root is that clamped variance and is never negative;
and whenever `sum_of_squares / n <= (sum / n)^2` the argument is `0`, so that `rms_ac`
is exactly `0` (the library root maps `0` to `0`). -/
theorem finish_window_rms_clamped (cfg : Config α) (st : State α)
    (hn : 0 < st.num_samples_) :
    rms_ac cfg st = cfg.sqrt (max 0 (st.sample_squared_sum_ / (st.num_samples_ : α)
        - (st.sample_sum_ / (st.num_samples_ : α)) ^ 2))
    ∧ (finish_window cfg st).map State.published =
        (if cfg.sample_duration_ = 0 then none
         else some (st.published ++
          [Reading.num
            (if cfg.sqrt (max 0 (st.sample_squared_sum_ / (st.num_samples_ : α)
                  - (st.sample_sum_ / (st.num_samples_ : α)) ^ 2)) < cfg.MIN_CURRENT
             then cfg.sqrt (max 0 (st.sample_squared_sum_ / (st.num_samples_ : α)
                  - (st.sample_sum_ / (st.num_samples_ : α)) ^ 2)) / 10
             else cfg.sqrt (max 0 (st.sample_squared_sum_ / (st.num_samples_ : α)
                  - (st.sample_sum_ / (st.num_samples_ : α)) ^ 2)))]))
    ∧ 0 ≤ rms_diff st
    ∧ (st.sample_squared_sum_ / (st.num_samples_ : α)
          ≤ (st.sample_sum_ / (st.num_samples_ : α)) ^ 2 →
        rms_diff st = 0 ∧ (cfg.sqrt 0 = 0 → rms_ac cfg st = 0)) := by
  have hac : rms_ac cfg st = cfg.sqrt (max 0 (st.sample_squared_sum_ / (st.num_samples_ : α)
        - (st.sample_sum_ / (st.num_samples_ : α)) ^ 2)) := by
    unfold rms_ac
    rw [rms_diff_eq_max]
  refine ⟨hac, ?_, ?_, ?_⟩
  · rw [finish_window_published_of_pos cfg st hn, hac]
  · rw [rms_diff_eq_max]
    exact le_max_left _ _
  · intro hle
    have hz : rms_diff st = 0 := by
      rw [rms_diff_eq_max]
      exact max_eq_left (sub_nonpos.mpr hle)
    refine ⟨hz, fun hs => ?_⟩
    unfold rms_ac
    rw [hz, hs]

/-- Witness of C1 at `sum = 3`, `sum_of_squares = 2`, `n = 1`: the clamp applies and
`rms_ac` is `0`. -/
theorem finish_window_rms_clamped_witness :
    0 < stClamp.num_samples_ ∧ rms_diff stClamp = 0 ∧ rms_ac cfgQ stClamp = 0 :=
  have hn : 0 < stClamp.num_samples_ := by decide
  have h := (finish_window_rms_clamped cfgQ stClamp hn).2.2.2 (by norm_num [stClamp])
  ⟨hn, h.1, h.2 (by simp [cfgQ, Rat.sqrt])⟩

/-- C2: for a state with `sample_count = 0`, whatever its other fields, the callback
publishes the missing result `NAN` and clears `is_sampling`, without trapping; the
resulting state is built without any quotient or root (it is the same for every
configuration, in particular for every `std::sqrt` and every `sample_duration_`), and
the sums, the last raw value and the filter
state are left as they were. -/
theorem finish_window_zero_samples (cfg : Config α) (st : State α)
    (h0 : st.num_samples_ = 0) :
    finish_window cfg st =
        some
          { st with
            is_sampling_ := false
            high_freq_ := false
            published := st.published ++ [Reading.nan] }
    ∧ (finish_window cfg st).map State.published = some (st.published ++ [Reading.nan])
    ∧ (finish_window cfg st).map State.is_sampling_ = some false
    ∧ ∀ cfg2 : Config α, finish_window cfg2 st = finish_window cfg st := by
  have h := finish_window_of_zero cfg st h0
  refine ⟨h, ?_, ?_, ?_⟩
  · rw [h]
    rfl
  · rw [h]
    rfl
  · intro cfg2
    rw [h, finish_window_of_zero cfg2 st h0]

/-- Witness of C2 at a freshly constructed sensor, which has no samples. -/
theorem finish_window_zero_samples_witness :
    (initial : State ℚ).num_samples_ = 0 ∧
      (finish_window cfgQ (initial : State ℚ)).map State.published = some [Reading.nan] :=
  ⟨rfl, (finish_window_zero_samples cfgQ initial rfl).2.1⟩

/-- C3: minimum-value policy of the timeout callback, for a threshold `T > 0` and a
window with `sample_count > 0`: if `rms_ac < T` the published value is `rms_ac / 10`,
otherwise (`T <= rms_ac`, equality included) it is `rms_ac` unchanged; in particular
`rms_ac = 0.5 * T` is published as `0.05 * T` and `rms_ac = 2 * T` as `2 * T`.  The
callback publishes in each of these cases unless `sample_duration_` is `0`, where it
traps on its log line. -/
theorem finish_window_minimum_policy (cfg : Config α) (st : State α)
    (hT : 0 < cfg.MIN_CURRENT) (hn : 0 < st.num_samples_) :
    (rms_ac cfg st < cfg.MIN_CURRENT →
        (finish_window cfg st).map State.published
          = if cfg.sample_duration_ = 0 then none
            else some (st.published ++ [Reading.num (rms_ac cfg st / 10)]))
    ∧ (cfg.MIN_CURRENT ≤ rms_ac cfg st →
        (finish_window cfg st).map State.published
          = if cfg.sample_duration_ = 0 then none
            else some (st.published ++ [Reading.num (rms_ac cfg st)]))
    ∧ (rms_ac cfg st = 0.5 * cfg.MIN_CURRENT →
        (finish_window cfg st).map State.published
          = if cfg.sample_duration_ = 0 then none
            else some (st.published ++ [Reading.num (0.05 * cfg.MIN_CURRENT)]))
    ∧ (rms_ac cfg st = 2 * cfg.MIN_CURRENT →
        (finish_window cfg st).map State.published
          = if cfg.sample_duration_ = 0 then none
            else some (st.published ++ [Reading.num (2 * cfg.MIN_CURRENT)])) := by
  have h := finish_window_published_of_pos cfg st hn
  refine ⟨fun hlt => ?_, fun hge => ?_, fun hhalf => ?_, fun htwo => ?_⟩
  · rw [h]
    simp only [if_pos hlt]
  · rw [h]
    simp only [if_neg (not_lt.mpr hge)]
  · have hlt : rms_ac cfg st < cfg.MIN_CURRENT := by
      rw [hhalf]
      norm_num
      linarith
    have hval : rms_ac cfg st / 10 = 0.05 * cfg.MIN_CURRENT := by
      rw [hhalf]
      norm_num
      ring
    rw [h]
    simp only [if_pos hlt, hval]
  · have hge : ¬ rms_ac cfg st < cfg.MIN_CURRENT := by
      rw [htwo]
      exact not_lt.mpr (by linarith)
    rw [h]
    simp only [if_neg hge]
    rw [htwo]

/-- Witness of C3: with threshold `1 / 2` and a window of variance `1`, `rms_ac` is
`2 * T` and is published unchanged. -/
theorem finish_window_minimum_policy_witness :
    0 < cfgHalf.MIN_CURRENT ∧ 0 < stUnit.num_samples_ ∧
      rms_ac cfgHalf stUnit = 2 * cfgHalf.MIN_CURRENT ∧
      (finish_window cfgHalf stUnit).map State.published
        = some (stUnit.published ++ [Reading.num (2 * cfgHalf.MIN_CURRENT)]) :=
  have hT : 0 < cfgHalf.MIN_CURRENT := by norm_num [cfgHalf]
  have hn : 0 < stUnit.num_samples_ := by decide
  have hr : rms_ac cfgHalf stUnit = 2 * cfgHalf.MIN_CURRENT := by
    norm_num [rms_ac, rms_diff, rms_ac_dc_squared, rms_dc, stUnit, cfgHalf, Rat.sqrt]
  have hd : cfgHalf.sample_duration_ ≠ 0 := by decide
  ⟨hT, hn, hr,
    ((finish_window_minimum_policy cfgHalf stUnit hT hn).2.2.2 hr).trans (if_neg hd)⟩

/-! ## The sampling step -/

/-- What `loop` does with a reading it accepts. -/
theorem loop_of_ne (cfg : Config α) (st : State α) (v : α)
    (hs : st.is_sampling_ = true) (hv : v ≠ st.last_value_) :
    loop cfg st (some (Reading.num v)) =
      { st with
        last_value_ := v
        g_prevOutput := st.g_prevOutput + alpha cfg * (v - st.g_prevOutput)
        num_samples_ := st.num_samples_ + 1
        sample_sum_ := st.sample_sum_ + (st.g_prevOutput + alpha cfg * (v - st.g_prevOutput))
        sample_squared_sum_ := st.sample_squared_sum_
          + (st.g_prevOutput + alpha cfg * (v - st.g_prevOutput))
            * (st.g_prevOutput + alpha cfg * (v - st.g_prevOutput)) } := by
  unfold loop lowPassFilter
  simp only [hs, Bool.not_true, Bool.false_eq_true, if_false]
  rw [if_neg (fun h => hv h.symm)]

/-- What `loop` does with a reading equal to the last raw value. -/
theorem loop_of_eq (cfg : Config α) (st : State α) (v : α) (hv : v = st.last_value_) :
    loop cfg st (some (Reading.num v)) = st := by
  unfold loop
  split_ifs with h1
  · rfl
  · simp only [hv, if_true]

/-- What `loop` does outside a sampling window. -/
theorem loop_of_idle (cfg : Config α) (st : State α) (src : Option (Reading α))
    (hs : st.is_sampling_ = false) : loop cfg st src = st := by
  unfold loop
  simp only [hs, Bool.not_false, if_true]

/-- C4: accepted-sample step of `loop`.  For a state with `is_sampling = true` and a
raw reading `v` that is a number different from `last_raw_value`, the new state has
`last_raw_value = v`, filter `previous_output = f` with
`f = old previous_output + alpha * (v - old previous_output)`, `sample_count` increased
by exactly `1`, `sum` increased by `f`, `sum_of_squares` increased by `f * f`, and
`is_sampling` still true (the remaining fields are untouched). -/
theorem loop_accepted_sample (cfg : Config α) (st : State α) (v : α)
    (hs : st.is_sampling_ = true) (hv : v ≠ st.last_value_) :
    (loop cfg st (some (Reading.num v))).last_value_ = v
    ∧ (loop cfg st (some (Reading.num v))).g_prevOutput
        = st.g_prevOutput + alpha cfg * (v - st.g_prevOutput)
    ∧ (loop cfg st (some (Reading.num v))).num_samples_ = st.num_samples_ + 1
    ∧ (loop cfg st (some (Reading.num v))).sample_sum_
        = st.sample_sum_ + (st.g_prevOutput + alpha cfg * (v - st.g_prevOutput))
    ∧ (loop cfg st (some (Reading.num v))).sample_squared_sum_
        = st.sample_squared_sum_
          + (st.g_prevOutput + alpha cfg * (v - st.g_prevOutput))
            * (st.g_prevOutput + alpha cfg * (v - st.g_prevOutput))
    ∧ (loop cfg st (some (Reading.num v))).is_sampling_ = true
    ∧ (loop cfg st (some (Reading.num v))).high_freq_ = st.high_freq_
    ∧ (loop cfg st (some (Reading.num v))).published = st.published
    ∧ (loop cfg st (some (Reading.num v))).read_timeouts = st.read_timeouts := by
  rw [loop_of_ne cfg st v hs hv]
  exact ⟨rfl, rfl, rfl, rfl, rfl, hs, rfl, rfl, rfl⟩

/-- Witness of C4: the window `stBusy` (last raw value `1`) accepts the reading `4`. -/
theorem loop_accepted_sample_witness :
    stBusy.is_sampling_ = true ∧ (4 : ℚ) ≠ stBusy.last_value_ ∧
      (loop cfgQ stBusy (some (Reading.num 4))).num_samples_ = stBusy.num_samples_ + 1 :=
  have hs : stBusy.is_sampling_ = true := rfl
  have hv : (4 : ℚ) ≠ stBusy.last_value_ := by norm_num [stBusy]
  ⟨hs, hv, (loop_accepted_sample cfgQ stBusy 4 hs hv).2.2.1⟩

/-- C5: for a state with `is_sampling = true`, a `loop` call whose raw reading is `NAN`
leaves the whole state unchanged (`sample_count`, `sum`, `sum_of_squares`,
`last_raw_value`, `is_sampling` and the filter's `previous_output` included): the
reading reaches neither the filter nor the sums. -/
theorem loop_nan_skipped (cfg : Config α) (st : State α) (hs : st.is_sampling_ = true) :
    loop cfg st (some Reading.nan) = st := by
  unfold loop
  simp only [hs, Bool.not_true, Bool.false_eq_true, if_false]

/-- Witness of C5 at the window `stBusy`. -/
theorem loop_nan_skipped_witness :
    stBusy.is_sampling_ = true ∧ loop cfgQ stBusy (some Reading.nan) = stBusy :=
  ⟨rfl, loop_nan_skipped cfgQ stBusy rfl⟩

/-- C6: duplicate suppression is idempotent.  For a state with `is_sampling = true` and
a raw reading `v` that is a number, polling `v` twice in succession yields exactly the
state reached by polling `v` once: the second of two consecutive identical readings
changes nothing. -/
theorem loop_duplicate_idempotent (cfg : Config α) (st : State α) (v : α)
    (hs : st.is_sampling_ = true) :
    loop cfg (loop cfg st (some (Reading.num v))) (some (Reading.num v))
      = loop cfg st (some (Reading.num v)) := by
  by_cases hv : v = st.last_value_
  · rw [loop_of_eq cfg st v hv, loop_of_eq cfg st v hv]
  · apply loop_of_eq
    rw [loop_of_ne cfg st v hs hv]

/-- Witness of C6: polling `4` twice in the window `stBusy` counts one sample. -/
theorem loop_duplicate_idempotent_witness :
    stBusy.is_sampling_ = true ∧
      loop cfgQ (loop cfgQ stBusy (some (Reading.num 4))) (some (Reading.num 4))
        = loop cfgQ stBusy (some (Reading.num 4)) :=
  ⟨rfl, loop_duplicate_idempotent cfgQ stBusy 4 rfl⟩

/-- C7: for a state with `is_sampling = false`, `loop` is a no-op whatever the source
returns (a number, `NAN`, or no source at all): no field changes.  Consequently a
`loop` step that changes `sum` or `sum_of_squares` was taken with `is_sampling = true`. -/
theorem loop_idle_noop (cfg : Config α) (st : State α) (src : Option (Reading α)) :
    (st.is_sampling_ = false → loop cfg st src = st)
    ∧ ((loop cfg st src).sample_sum_ ≠ st.sample_sum_
        ∨ (loop cfg st src).sample_squared_sum_ ≠ st.sample_squared_sum_ →
        st.is_sampling_ = true) := by
  refine ⟨loop_of_idle cfg st src, fun hchg => ?_⟩
  by_contra hne
  have hs : st.is_sampling_ = false := by simpa using hne
  rw [loop_of_idle cfg st src hs] at hchg
  rcases hchg with h | h <;> exact h rfl

/-- Witness of C7: a sensor that is not sampling ignores the reading `5`; and the
window `stBusy`, whose `sum` changes on the reading `4`, is sampling. -/
theorem loop_idle_noop_witness :
    ((initial : State ℚ).is_sampling_ = false ∧
      loop cfgQ (initial : State ℚ) (some (Reading.num 5)) = initial)
    ∧ ((loop cfgQ stBusy (some (Reading.num 4))).sample_sum_ ≠ stBusy.sample_sum_ ∧
      stBusy.is_sampling_ = true) :=
  have hchg : (loop cfgQ stBusy (some (Reading.num 4))).sample_sum_ ≠ stBusy.sample_sum_ := by
    norm_num [loop, lowPassFilter, alpha, RC, dt, cfgQ, stBusy]
  ⟨⟨rfl, (loop_idle_noop cfgQ initial (some (Reading.num 5))).1 rfl⟩,
    hchg, (loop_idle_noop cfgQ stBusy (some (Reading.num 4))).2 (Or.inl hchg)⟩

/-! ## Starting a window, and the filter -/

/-- C8: for every prior state, `update` yields a state with `is_sampling = true`,
`last_raw_value = 0`, `sample_count = 0`, `sum = 0`, `sum_of_squares = 0`, and the
filter's `previous_output` equal to its value before the call: the filter state is
carried across windows, so the next filter call continues from it. -/
theorem update_resets_session (cfg : Config α) (st : State α) :
    (update cfg st).is_sampling_ = true
    ∧ (update cfg st).last_value_ = 0
    ∧ (update cfg st).num_samples_ = 0
    ∧ (update cfg st).sample_sum_ = 0
    ∧ (update cfg st).sample_squared_sum_ = 0
    ∧ (update cfg st).g_prevOutput = st.g_prevOutput
    ∧ ∀ x : α, (lowPassFilter cfg (update cfg st) x).1
        = st.g_prevOutput + alpha cfg * (x - st.g_prevOutput) :=
  ⟨rfl, rfl, rfl, rfl, rfl, rfl, fun _ => rfl⟩

/-- C9: for every `previous_output = p` and every input `x`, `lowPassFilter` returns
`p + alpha * (x - p)`, stores exactly the returned value as the new `previous_output`
(and touches nothing else); with `previous_output = 0`, its initial value, the call on
input `x` returns `alpha * x`. -/
theorem lowPassFilter_output (cfg : Config α) (st : State α) (x : α) :
    (lowPassFilter cfg st x).1 = st.g_prevOutput + alpha cfg * (x - st.g_prevOutput)
    ∧ (lowPassFilter cfg st x).2.g_prevOutput = (lowPassFilter cfg st x).1
    ∧ (lowPassFilter cfg st x).2 = { st with g_prevOutput := (lowPassFilter cfg st x).1 }
    ∧ (initial : State α).g_prevOutput = 0
    ∧ (lowPassFilter cfg { st with g_prevOutput := 0 } x).1 = alpha cfg * x := by
  refine ⟨rfl, rfl, rfl, rfl, ?_⟩
  unfold lowPassFilter
  simp only [sub_zero, zero_add]

/-! ## Counting the accepted samples of a window -/

/-- Polling a list of readings, one step unfolded. -/
theorem poll_all_cons (cfg : Config α) (st : State α) (r : Reading α)
    (rs : List (Reading α)) :
    poll_all cfg st (r :: rs) = poll_all cfg (loop cfg st (some r)) rs := rfl

/-- In a sampling window, a list of numbers each different from the raw value seen just
before it is accepted in full. -/
theorem poll_all_count_chain (cfg : Config α) (rs : List (Reading α)) :
    ∀ st : State α, st.is_sampling_ = true →
      (∀ r ∈ rs, r ≠ Reading.nan) →
      List.Chain (fun a b => a ≠ b) (Reading.num st.last_value_) rs →
      (poll_all cfg st rs).num_samples_ = st.num_samples_ + rs.length := by
  induction rs with
  | nil =>
    intro st _ _ _
    rfl
  | cons r rs ih =>
    intro st hs hnan hch
    rw [List.chain_cons] at hch
    cases r with
    | nan => exact absurd rfl (hnan Reading.nan (List.mem_cons_self _ _))
    | num v =>
      have hv : v ≠ st.last_value_ := fun h => hch.1 (by rw [h])
      have hl := loop_of_ne cfg st v hs hv
      have hs1 : (loop cfg st (some (Reading.num v))).is_sampling_ = true := by
        rw [hl]
        exact hs
      have hlast : (loop cfg st (some (Reading.num v))).last_value_ = v := by rw [hl]
      have hcount : (loop cfg st (some (Reading.num v))).num_samples_
          = st.num_samples_ + 1 := by rw [hl]
      have hrec := ih (loop cfg st (some (Reading.num v))) hs1
        (fun r hr => hnan r (List.mem_cons_of_mem _ hr)) (by rw [hlast]; exact hch.2)
      rw [poll_all_cons, hrec, hcount, List.length_cons]
      omega

/-- Counterexample to C10 as stated: after `update`, the readings `0, 1` are both
numbers and differ from one another, yet only one of the two is counted, because the
first equals the `0` that `update` stored in `last_value_`. -/
theorem poll_all_count_zero_first :
    (∀ r ∈ rsZeroFirst, r ≠ Reading.nan)
    ∧ List.Chain' (fun a b => a ≠ b) rsZeroFirst
    ∧ (poll_all cfgQ (update cfgQ initial) rsZeroFirst).num_samples_ = 1
    ∧ (poll_all cfgQ (update cfgQ initial) rsZeroFirst).num_samples_ ≠ rsZeroFirst.length := by
  have hc : (poll_all cfgQ (update cfgQ initial) rsZeroFirst).num_samples_ = 1 := by
    simp [rsZeroFirst, poll_all, loop, lowPassFilter, update, initial]
  refine ⟨?_, ?_, hc, ?_⟩
  · simp [rsZeroFirst]
  · simp [rsZeroFirst]
  · rw [hc]
    simp [rsZeroFirst]

/-- C10 (amended): after `update`, polling a finite sequence of raw readings that are
all numbers, in which no two consecutive readings are equal and whose first reading is
not `0` (the value `update` stores in `last_value_`), leaves `sample_count` equal to the
length of the sequence. -/
theorem poll_all_count_after_update (cfg : Config α) (st : State α)
    (rs : List (Reading α)) (hnan : ∀ r ∈ rs, r ≠ Reading.nan)
    (hch : List.Chain' (fun a b => a ≠ b) rs)
    (h0 : rs.head? ≠ some (Reading.num 0)) :
    (poll_all cfg (update cfg st) rs).num_samples_ = rs.length := by
  have h := poll_all_count_chain cfg rs (update cfg st) rfl hnan
  have hz : (update cfg st).num_samples_ = 0 := rfl
  rw [hz, Nat.zero_add] at h
  apply h
  cases rs with
  | nil => exact List.Chain.nil
  | cons r rs =>
    refine List.Chain.cons (fun h1 => h0 ?_) hch
    have hl : (update cfg st).last_value_ = 0 := rfl
    rw [← h1, hl]
    rfl

/-- Witness of the amended C10: the three readings `1, 2, 1` polled after `update` are
all counted. -/
theorem poll_all_count_after_update_witness :
    (∀ r ∈ rsVarying, r ≠ Reading.nan)
    ∧ List.Chain' (fun a b => a ≠ b) rsVarying
    ∧ rsVarying.head? ≠ some (Reading.num 0)
    ∧ (poll_all cfgQ (update cfgQ initial) rsVarying).num_samples_ = 3 :=
  have h1 : ∀ r ∈ rsVarying, r ≠ Reading.nan := by simp [rsVarying]
  have h2 : List.Chain' (fun a b => a ≠ b) rsVarying := by simp [rsVarying]
  have h3 : rsVarying.head? ≠ some (Reading.num 0) := by simp [rsVarying]
  ⟨h1, h2, h3, poll_all_count_after_update cfgQ initial rsVarying h1 h2 h3⟩

/-! ## What a window reports -/

/-- C11, the code at a failing input: a window started by `update` that accepts the
single reading `1` has `sample_count = 1` and `rms_ac = 0`, which is below the positive
threshold `1 / 10`, and the timeout callback publishes `0 / 10`, an exact zero. -/
theorem finish_window_publishes_zero :
    0 < cfgQ.MIN_CURRENT
    ∧ (poll_all cfgQ (update cfgQ initial) rsSingle).num_samples_ = 1
    ∧ rms_ac cfgQ (poll_all cfgQ (update cfgQ initial) rsSingle) = 0
    ∧ rms_ac cfgQ (poll_all cfgQ (update cfgQ initial) rsSingle) < cfgQ.MIN_CURRENT
    ∧ (finish_window cfgQ (poll_all cfgQ (update cfgQ initial) rsSingle)).map
        State.published = some [Reading.num 0] := by
  have hT : 0 < cfgQ.MIN_CURRENT := by norm_num [cfgQ]
  have hn : (poll_all cfgQ (update cfgQ initial) rsSingle).num_samples_ = 1 := by
    simp [rsSingle, poll_all, loop, lowPassFilter, update, initial]
  have hr : rms_ac cfgQ (poll_all cfgQ (update cfgQ initial) rsSingle) = 0 := by
    simp [rms_ac, rms_diff, rms_ac_dc_squared, rms_dc, rsSingle, poll_all, loop,
      lowPassFilter, update, initial, cfgQ, Rat.sqrt]
  have hlt : rms_ac cfgQ (poll_all cfgQ (update cfgQ initial) rsSingle) < cfgQ.MIN_CURRENT := by
    rw [hr]
    exact hT
  have hd : cfgQ.sample_duration_ ≠ 0 := by decide
  refine ⟨hT, hn, hr, hlt, ?_⟩
  rw [finish_window_published_of_pos cfgQ _ (by rw [hn]; exact Nat.one_pos), if_neg hd]
  simp only [if_pos hlt, hr]
  simp [rsSingle, poll_all, loop, lowPassFilter, update, initial]

/-- The outcome of the timeout callback on any state: it traps exactly when
`sample_count` is not `0` and `sample_duration_` is `0`; otherwise it clears
`is_sampling_` and the fast-loop request and appends exactly one entry to the log of
published values, `NAN` for `sample_count = 0` and one number otherwise. -/
theorem finish_window_outcome (cfg : Config α) (st : State α) :
    finish_window cfg st =
      if st.num_samples_ ≠ 0 ∧ cfg.sample_duration_ = 0 then none
      else some
        { st with
          is_sampling_ := false
          high_freq_ := false
          published := st.published ++
            [if st.num_samples_ = 0 then Reading.nan
             else Reading.num (if rms_ac cfg st < cfg.MIN_CURRENT then rms_ac cfg st / 10
                               else rms_ac cfg st)] } := by
  by_cases h0 : st.num_samples_ = 0
  · have hc : ¬ (st.num_samples_ ≠ 0 ∧ cfg.sample_duration_ = 0) := fun h => h.1 h0
    rw [finish_window_of_zero cfg st h0, if_neg hc, if_pos h0]
  · rw [finish_window_of_pos cfg st (Nat.pos_of_ne_zero h0)]
    by_cases hd : cfg.sample_duration_ = 0
    · have hc : st.num_samples_ ≠ 0 ∧ cfg.sample_duration_ = 0 := ⟨h0, hd⟩
      rw [if_pos hd, if_pos hc]
    · have hc : ¬ (st.num_samples_ ≠ 0 ∧ cfg.sample_duration_ = 0) := fun h => hd h.2
      rw [if_neg hd, if_neg hc, if_neg h0]

/-- C12, the code at a failing input: with `sample_duration_ = 0`, a window started by
`update` that accepts the single reading `1` has `sample_count = 1`, and the timeout
callback traps on the division `1000 * num_samples_ / sample_duration_` of its log
line before it reaches `publish_state`: it reports nothing. -/
theorem finish_window_traps_zero_duration :
    cfgNoDuration.sample_duration_ = 0
    ∧ (poll_all cfgNoDuration (update cfgNoDuration initial) rsSingle).num_samples_ = 1
    ∧ samples_per_second cfgNoDuration
        (poll_all cfgNoDuration (update cfgNoDuration initial) rsSingle) = none
    ∧ finish_window cfgNoDuration
        (poll_all cfgNoDuration (update cfgNoDuration initial) rsSingle) = none := by
  have hn : (poll_all cfgNoDuration (update cfgNoDuration initial) rsSingle).num_samples_
      = 1 := by
    simp [rsSingle, poll_all, loop, lowPassFilter, update, initial]
  refine ⟨rfl, hn, rfl, ?_⟩
  rw [finish_window_of_pos cfgNoDuration _ (by rw [hn]; exact Nat.one_pos)]
  rfl

/-- The fields the timeout callback leaves alone. -/
theorem finish_window_frame (cfg : Config α) (st s : State α)
    (h : finish_window cfg st = some s) :
    s.sample_sum_ = st.sample_sum_
    ∧ s.sample_squared_sum_ = st.sample_squared_sum_
    ∧ s.num_samples_ = st.num_samples_
    ∧ s.last_value_ = st.last_value_
    ∧ s.g_prevOutput = st.g_prevOutput := by
  rw [finish_window_outcome] at h
  by_cases hc : st.num_samples_ ≠ 0 ∧ cfg.sample_duration_ = 0
  · rw [if_pos hc] at h
    cases h
  · rw [if_neg hc] at h
    cases h
    exact ⟨rfl, rfl, rfl, rfl, rfl⟩

/-- The `rms_ac` of the callback depends on the two sums and the count only. -/
theorem rms_ac_congr (cfg : Config α) (st1 st2 : State α)
    (hsum : st1.sample_sum_ = st2.sample_sum_)
    (hsq : st1.sample_squared_sum_ = st2.sample_squared_sum_)
    (hn : st1.num_samples_ = st2.num_samples_) :
    rms_ac cfg st1 = rms_ac cfg st2 := by
  unfold rms_ac rms_diff rms_ac_dc_squared rms_dc
  rw [hsum, hsq, hn]

/-- C13: for a fixed configuration, what the timeout callback reports is determined by
`(sum, sum_of_squares, sample_count)`: for two states that agree on these three fields
there is one outcome `r`, the same for both whatever their `last_raw_value`,
`is_sampling` and filter `previous_output`: either the entry that is appended to the
log of each, or `none` when the callback traps (which it does exactly when
`sample_count` is not `0` and `sample_duration_` is `0`).  And the state the callback
leaves has the `sum`, `sum_of_squares`, `sample_count`, `last_raw_value` and
`previous_output` it started from. -/
theorem finish_window_report_determined (cfg : Config α) (st1 st2 : State α)
    (hsum : st1.sample_sum_ = st2.sample_sum_)
    (hsq : st1.sample_squared_sum_ = st2.sample_squared_sum_)
    (hn : st1.num_samples_ = st2.num_samples_) :
    (∃ r : Option (Reading α),
        (r = none ↔ st1.num_samples_ ≠ 0 ∧ cfg.sample_duration_ = 0)
        ∧ (finish_window cfg st1).map State.published
            = r.map (fun x => st1.published ++ [x])
        ∧ (finish_window cfg st2).map State.published
            = r.map (fun x => st2.published ++ [x]))
    ∧ (∀ s : State α, finish_window cfg st1 = some s →
        s.sample_sum_ = st1.sample_sum_
        ∧ s.sample_squared_sum_ = st1.sample_squared_sum_
        ∧ s.num_samples_ = st1.num_samples_
        ∧ s.last_value_ = st1.last_value_
        ∧ s.g_prevOutput = st1.g_prevOutput) := by
  refine ⟨?_, fun s hs => finish_window_frame cfg st1 s hs⟩
  by_cases h0 : st1.num_samples_ = 0
  · refine ⟨some Reading.nan, ?_, ?_, ?_⟩
    · constructor
      · intro h
        cases h
      · intro h
        exact absurd h0 h.1
    · rw [finish_window_of_zero cfg st1 h0]
      rfl
    · rw [finish_window_of_zero cfg st2 (hn ▸ h0)]
      rfl
  · have h1 : 0 < st1.num_samples_ := Nat.pos_of_ne_zero h0
    have h2 : 0 < st2.num_samples_ := hn ▸ h1
    by_cases hd : cfg.sample_duration_ = 0
    · refine ⟨none, ⟨fun _ => ⟨h0, hd⟩, fun _ => rfl⟩, ?_, ?_⟩
      · rw [finish_window_published_of_pos cfg st1 h1, if_pos hd]
        rfl
      · rw [finish_window_published_of_pos cfg st2 h2, if_pos hd]
        rfl
    · refine ⟨some (Reading.num (if rms_ac cfg st1 < cfg.MIN_CURRENT
          then rms_ac cfg st1 / 10 else rms_ac cfg st1)), ?_, ?_, ?_⟩
      · constructor
        · intro h
          cases h
        · intro h
          exact absurd h.2 hd
      · rw [finish_window_published_of_pos cfg st1 h1, if_neg hd]
        rfl
      · rw [finish_window_published_of_pos cfg st2 h2, if_neg hd,
          rms_ac_congr cfg st1 st2 hsum hsq hn]
        rfl

/-- Witness of C13: `stUnit` and `stUnitIdle` share their sums and count and differ in
`last_raw_value`, `is_sampling` and `previous_output`; the callback appends the same
entry to both logs. -/
theorem finish_window_report_determined_witness :
    stUnit.last_value_ ≠ stUnitIdle.last_value_
    ∧ stUnit.is_sampling_ ≠ stUnitIdle.is_sampling_
    ∧ stUnit.g_prevOutput ≠ stUnitIdle.g_prevOutput
    ∧ ∃ r : Reading ℚ,
        (finish_window cfgHalf stUnit).map State.published
          = some (stUnit.published ++ [r])
        ∧ (finish_window cfgHalf stUnitIdle).map State.published
          = some (stUnitIdle.published ++ [r]) := by
  obtain ⟨r, hr, h1, h2⟩ :=
    (finish_window_report_determined cfgHalf stUnit stUnitIdle rfl rfl rfl).1
  refine ⟨by norm_num [stUnit, stUnitIdle], by simp [stUnit, stUnitIdle],
    by norm_num [stUnit, stUnitIdle], ?_⟩
  cases r with
  | none => exact absurd (hr.mp rfl).2 (by decide)
  | some x => exact ⟨x, h1, h2⟩

/-! ## The filter over several calls -/

/-- Successive filter calls, one step unfolded. -/
theorem lowPassFilter_all_cons (cfg : Config α) (st : State α) (x : α) (xs : List α) :
    lowPassFilter_all cfg st (x :: xs)
      = lowPassFilter_all cfg (lowPassFilter cfg st x).2 xs := rfl

/-- The state of the filter after `k` calls on the same input `x`. -/
theorem lowPassFilter_all_replicate (cfg : Config α) (x : α) (k : ℕ) :
    ∀ st : State α, (lowPassFilter_all cfg st (List.replicate k x)).g_prevOutput
      = x + (1 - alpha cfg) ^ k * (st.g_prevOutput - x) := by
  induction k with
  | zero =>
    intro st
    simp [lowPassFilter_all]
  | succ k ih =>
    intro st
    rw [List.replicate_succ, lowPassFilter_all_cons, ih]
    unfold lowPassFilter
    simp only []
    ring

/-- The coefficient of the filter lies strictly between `0` and `1` when the two
configuration constants are positive. -/
theorem alpha_pos_lt_one (cfg : Config α) (hc : 0 < cfg.CUTOFF) (hr : 0 < cfg.SAMPLE_RATE) :
    0 < alpha cfg ∧ alpha cfg < 1 := by
  have hdt : 0 < dt cfg := by
    unfold dt
    exact one_div_pos.mpr hr
  have hRC : 0 < RC cfg := by
    unfold RC
    apply one_div_pos.mpr
    have h3 : (0 : α) < 3.1415 := by norm_num
    positivity
  have hden : 0 < RC cfg + dt cfg := add_pos hRC hdt
  unfold alpha
  exact ⟨div_pos hdt hden, (div_lt_one hden).mpr (by linarith)⟩

/-- With a coefficient between `0` and `1` the filter output lies between the previous
output and the input. -/
theorem lowPassFilter_between (cfg : Config α) (st : State α) (x : α)
    (h0 : 0 ≤ alpha cfg) (h1 : alpha cfg ≤ 1) :
    min st.g_prevOutput x ≤ (lowPassFilter cfg st x).1
    ∧ (lowPassFilter cfg st x).1 ≤ max st.g_prevOutput x := by
  unfold lowPassFilter
  simp only []
  rcases le_total st.g_prevOutput x with h | h
  · rw [min_eq_left h, max_eq_right h]
    constructor
    · nlinarith [mul_nonneg h0 (sub_nonneg.mpr h)]
    · nlinarith [mul_nonneg (sub_nonneg.mpr h1) (sub_nonneg.mpr h)]
  · rw [min_eq_right h, max_eq_left h]
    constructor
    · nlinarith [mul_nonneg (sub_nonneg.mpr h1) (sub_nonneg.mpr h)]
    · nlinarith [mul_nonneg h0 (sub_nonneg.mpr h)]

/-- With a coefficient between `0` and `1`, an interval that holds the previous output
and all the inputs holds all the outputs and the final filter state. -/
theorem lowPassFilter_interval (cfg : Config α) (a b : α)
    (h0 : 0 ≤ alpha cfg) (h1 : alpha cfg ≤ 1) (xs : List α) :
    ∀ st : State α, a ≤ st.g_prevOutput → st.g_prevOutput ≤ b →
      (∀ x ∈ xs, a ≤ x ∧ x ≤ b) →
      (∀ y ∈ lowPassFilter_outputs cfg st xs, a ≤ y ∧ y ≤ b)
      ∧ a ≤ (lowPassFilter_all cfg st xs).g_prevOutput
      ∧ (lowPassFilter_all cfg st xs).g_prevOutput ≤ b := by
  induction xs with
  | nil =>
    intro st ha hb _
    exact ⟨fun y hy => absurd hy (List.not_mem_nil y), ha, hb⟩
  | cons x xs ih =>
    intro st ha hb hxs
    have hx := hxs x (List.mem_cons_self _ _)
    have hbt := lowPassFilter_between cfg st x h0 h1
    have hlo : a ≤ (lowPassFilter cfg st x).1 := le_trans (le_min ha hx.1) hbt.1
    have hhi : (lowPassFilter cfg st x).1 ≤ b := le_trans hbt.2 (max_le hb hx.2)
    have hrec := ih (lowPassFilter cfg st x).2 hlo hhi
      (fun z hz => hxs z (List.mem_cons_of_mem _ hz))
    refine ⟨fun y hy => ?_, ?_, ?_⟩
    · rcases List.mem_cons.mp hy with h | h
      · rw [h]
        exact ⟨hlo, hhi⟩
      · exact hrec.1 y h
    · rw [lowPassFilter_all_cons]
      exact hrec.2.1
    · rw [lowPassFilter_all_cons]
      exact hrec.2.2

/-- C14: exponential step response of `lowPassFilter`.  For every starting
`previous_output = y0`, every input `x` and every `k`, after `k` consecutive calls
`lowPassFilter(x)` the filter holds `x + (1 - alpha)^k * (y0 - x)`, and the next call
returns `x + (1 - alpha)^(k+1) * (y0 - x)`; hence, when `0 < alpha < 1`, each call
multiplies the distance to `x` by `1 - alpha`, and that distance tends to `0`: it is
below any `ε > 0` from some number of calls on. -/
theorem lowPassFilter_step_response [Archimedean α] (cfg : Config α) (st : State α)
    (x : α) (k : ℕ) :
    (lowPassFilter_all cfg st (List.replicate k x)).g_prevOutput
      = x + (1 - alpha cfg) ^ k * (st.g_prevOutput - x)
    ∧ (lowPassFilter cfg (lowPassFilter_all cfg st (List.replicate k x)) x).1
      = x + (1 - alpha cfg) ^ (k + 1) * (st.g_prevOutput - x)
    ∧ (0 < alpha cfg → alpha cfg < 1 →
        |(lowPassFilter cfg (lowPassFilter_all cfg st (List.replicate k x)) x).1 - x|
          = (1 - alpha cfg)
            * |(lowPassFilter_all cfg st (List.replicate k x)).g_prevOutput - x|
        ∧ ∀ ε : α, 0 < ε → ∃ K : ℕ, ∀ j : ℕ, K ≤ j →
            |(lowPassFilter_all cfg st (List.replicate j x)).g_prevOutput - x| < ε) := by
  have hk := lowPassFilter_all_replicate cfg x k st
  have hnext : (lowPassFilter cfg (lowPassFilter_all cfg st (List.replicate k x)) x).1
      = x + (1 - alpha cfg) ^ (k + 1) * (st.g_prevOutput - x) := by
    unfold lowPassFilter
    simp only []
    rw [hk]
    ring
  refine ⟨hk, hnext, fun hpos hlt => ⟨?_, fun ε hε => ?_⟩⟩
  · have hq : 0 ≤ 1 - alpha cfg := by linarith
    rw [hnext, hk, add_sub_cancel_left, add_sub_cancel_left, pow_succ, mul_assoc,
      mul_left_comm, abs_mul, abs_of_nonneg hq]
  · have hq0 : 0 ≤ 1 - alpha cfg := by linarith
    have hq1 : 1 - alpha cfg < 1 := by linarith
    have hd : 0 < |st.g_prevOutput - x| + 1 := by positivity
    obtain ⟨K, hK⟩ := exists_pow_lt_of_lt_one (div_pos hε hd) hq1
    refine ⟨K, fun j hj => ?_⟩
    rw [lowPassFilter_all_replicate, add_sub_cancel_left, abs_mul,
      abs_of_nonneg (pow_nonneg hq0 j)]
    have hle : (1 - alpha cfg) ^ j ≤ (1 - alpha cfg) ^ K :=
      pow_le_pow_of_le_one hq0 hq1.le hj
    have hlt2 : (1 - alpha cfg) ^ j < ε / (|st.g_prevOutput - x| + 1) :=
      lt_of_le_of_lt hle hK
    have hmul : (1 - alpha cfg) ^ j * (|st.g_prevOutput - x| + 1) < ε :=
      (lt_div_iff₀ hd).mp hlt2
    have hnn : 0 ≤ (1 - alpha cfg) ^ j := pow_nonneg hq0 j
    nlinarith [abs_nonneg (st.g_prevOutput - x)]

/-- Witness of C14: with the configuration `cfgQ`, whose coefficient lies between `0`
and `1`, three calls on the input `5` starting from `stBusy`. -/
theorem lowPassFilter_step_response_witness :
    0 < alpha cfgQ ∧ alpha cfgQ < 1 ∧
      |(lowPassFilter cfgQ (lowPassFilter_all cfgQ stBusy (List.replicate 3 5)) 5).1 - 5|
        = (1 - alpha cfgQ)
          * |(lowPassFilter_all cfgQ stBusy (List.replicate 3 5)).g_prevOutput - 5| :=
  have h0 : 0 < alpha cfgQ := by norm_num [alpha, RC, dt, cfgQ]
  have h1 : alpha cfgQ < 1 := by norm_num [alpha, RC, dt, cfgQ]
  ⟨h0, h1, ((lowPassFilter_step_response cfgQ stBusy 5 3).2.2 h0 h1).1⟩

/-- C18: for positive `CUTOFF` and `SAMPLE_RATE` the coefficient satisfies
`0 < alpha < 1`; therefore every `lowPassFilter` output lies between the previous output
`p` and the input `x` (`min p x <= output <= max p x`); and if the initial
`previous_output` and all inputs lie in an interval `[a, b]`, so do every output (each
of which is the `previous_output` stored by its call) and the final `previous_output`. -/
theorem lowPassFilter_bounded (cfg : Config α)
    (hc : 0 < cfg.CUTOFF) (hr : 0 < cfg.SAMPLE_RATE) :
    (0 < alpha cfg ∧ alpha cfg < 1)
    ∧ (∀ (st : State α) (x : α),
        min st.g_prevOutput x ≤ (lowPassFilter cfg st x).1
        ∧ (lowPassFilter cfg st x).1 ≤ max st.g_prevOutput x
        ∧ (lowPassFilter cfg st x).2.g_prevOutput = (lowPassFilter cfg st x).1)
    ∧ (∀ (a b : α) (st : State α) (xs : List α),
        a ≤ st.g_prevOutput → st.g_prevOutput ≤ b → (∀ x ∈ xs, a ≤ x ∧ x ≤ b) →
        (∀ y ∈ lowPassFilter_outputs cfg st xs, a ≤ y ∧ y ≤ b)
        ∧ a ≤ (lowPassFilter_all cfg st xs).g_prevOutput
        ∧ (lowPassFilter_all cfg st xs).g_prevOutput ≤ b) := by
  have ha := alpha_pos_lt_one cfg hc hr
  refine ⟨ha, fun st x => ?_, fun a b st xs hlo hhi hxs => ?_⟩
  · have hb := lowPassFilter_between cfg st x ha.1.le ha.2.le
    exact ⟨hb.1, hb.2, rfl⟩
  · exact lowPassFilter_interval cfg a b ha.1.le ha.2.le xs st hlo hhi hxs

/-- Witness of C18: the configuration `cfgQ` has positive constants; starting from
`stBusy` (previous output `2`), the inputs `1, 4, 3` keep the filter within `[1, 4]`. -/
theorem lowPassFilter_bounded_witness :
    0 < cfgQ.CUTOFF ∧ 0 < cfgQ.SAMPLE_RATE ∧ (0 < alpha cfgQ ∧ alpha cfgQ < 1)
    ∧ (∀ y ∈ lowPassFilter_outputs cfgQ stBusy [1, 4, 3], 1 ≤ y ∧ y ≤ 4) :=
  have hc : 0 < cfgQ.CUTOFF := by norm_num [cfgQ]
  have hr : 0 < cfgQ.SAMPLE_RATE := by norm_num [cfgQ]
  have h := lowPassFilter_bounded cfgQ hc hr
  ⟨hc, hr, h.1,
    (h.2.2 1 4 stBusy [1, 4, 3] (by norm_num [stBusy]) (by norm_num [stBusy])
      (by simp; norm_num)).1⟩

/-! ## The filter coefficient -/

/-- Over the reals and for positive constants, the coefficient the code computes with
`3.1415` is strictly below the one the formula gives with the number `π`. -/
theorem alpha_lt_pi_formula (cfg : Config ℝ)
    (hc : 0 < cfg.CUTOFF) (hr : 0 < cfg.SAMPLE_RATE) :
    alpha cfg < (1 / cfg.SAMPLE_RATE)
      / (1 / (2 * Real.pi * cfg.CUTOFF) + 1 / cfg.SAMPLE_RATE) := by
  have hpi : (3.1415 : ℝ) < Real.pi := Real.pi_gt_d4
  have h3 : (0 : ℝ) < 3.1415 := by norm_num
  have hdt : 0 < 1 / cfg.SAMPLE_RATE := one_div_pos.mpr hr
  have hcode : 0 < cfg.CUTOFF * 2 * 3.1415 := by positivity
  have hlt : cfg.CUTOFF * 2 * 3.1415 < 2 * Real.pi * cfg.CUTOFF := by nlinarith
  have hRC : 1 / (2 * Real.pi * cfg.CUTOFF) < 1 / (cfg.CUTOFF * 2 * 3.1415) :=
    one_div_lt_one_div_of_lt hcode hlt
  have hden : 0 < 1 / (2 * Real.pi * cfg.CUTOFF) + 1 / cfg.SAMPLE_RATE :=
    add_pos (one_div_pos.mpr (lt_trans hcode hlt)) hdt
  unfold alpha RC dt
  exact div_lt_div_of_pos_left hdt hden (by linarith)

/-- Counterexample to C15 as stated: for `CUTOFF = 100` and `SAMPLE_RATE = 1000`, both
positive, the coefficient `alpha` of the code is not `dt / (RC + dt)` with
`RC = 1 / (2 * π * CUTOFF)`: the code computes `RC` with `3.1415`, which is not `π`. -/
theorem alpha_ne_pi_formula :
    (0 : ℝ) < (cfgOver Real.sqrt).CUTOFF
    ∧ (0 : ℝ) < (cfgOver Real.sqrt).SAMPLE_RATE
    ∧ alpha (cfgOver Real.sqrt) ≠ (1 / (cfgOver Real.sqrt).SAMPLE_RATE)
        / (1 / (2 * Real.pi * (cfgOver Real.sqrt).CUTOFF)
            + 1 / (cfgOver Real.sqrt).SAMPLE_RATE) := by
  have hc : (0 : ℝ) < (cfgOver Real.sqrt).CUTOFF := by norm_num [cfgOver]
  have hr : (0 : ℝ) < (cfgOver Real.sqrt).SAMPLE_RATE := by norm_num [cfgOver]
  exact ⟨hc, hr, ne_of_lt (alpha_lt_pi_formula _ hc hr)⟩

/-- C15 (amended): for positive `CUTOFF` and `SAMPLE_RATE`, the coefficient used by
`lowPassFilter` is `alpha = dt / (RC + dt)` with `dt = 1 / SAMPLE_RATE` and
`RC = 1 / (2 * 3.1415 * CUTOFF)`, where `3.1415` is the decimal constant the code
writes in the place of `π`; in closed form
`alpha = 2 * 3.1415 * CUTOFF / (SAMPLE_RATE + 2 * 3.1415 * CUTOFF)`. -/
theorem alpha_formula (cfg : Config α)
    (hc : 0 < cfg.CUTOFF) (hr : 0 < cfg.SAMPLE_RATE) :
    dt cfg = 1 / cfg.SAMPLE_RATE
    ∧ RC cfg = 1 / (2 * 3.1415 * cfg.CUTOFF)
    ∧ alpha cfg = dt cfg / (RC cfg + dt cfg)
    ∧ alpha cfg = (1 / cfg.SAMPLE_RATE)
        / (1 / (2 * 3.1415 * cfg.CUTOFF) + 1 / cfg.SAMPLE_RATE)
    ∧ alpha cfg = 2 * 3.1415 * cfg.CUTOFF / (cfg.SAMPLE_RATE + 2 * 3.1415 * cfg.CUTOFF) := by
  have hRC : RC cfg = 1 / (2 * 3.1415 * cfg.CUTOFF) := by
    unfold RC
    rw [mul_assoc, mul_comm]
  have hre : cfg.SAMPLE_RATE ≠ 0 := ne_of_gt hr
  have h3 : (0 : α) < 3.1415 := by norm_num
  have hk : (2 : α) * 3.1415 * cfg.CUTOFF ≠ 0 := ne_of_gt (by positivity)
  refine ⟨rfl, hRC, rfl, ?_, ?_⟩
  · unfold alpha
    rw [hRC]
    rfl
  · unfold alpha
    rw [hRC]
    unfold dt
    rw [div_add_div _ _ hk hre, div_div_eq_mul_div, one_mul, div_mul_eq_mul_div, one_mul,
      div_div, mul_comm cfg.SAMPLE_RATE, mul_div_mul_right _ _ hre, mul_one]

/-- Witness of the amended C15 at the configuration `cfgQ`: the coefficient is
`6283 / 16283`. -/
theorem alpha_formula_witness :
    0 < cfgQ.CUTOFF ∧ 0 < cfgQ.SAMPLE_RATE ∧
      alpha cfgQ = 2 * 3.1415 * cfgQ.CUTOFF / (cfgQ.SAMPLE_RATE + 2 * 3.1415 * cfgQ.CUTOFF)
      ∧ alpha cfgQ = 6283 / 16283 :=
  have hc : 0 < cfgQ.CUTOFF := by norm_num [cfgQ]
  have hr : 0 < cfgQ.SAMPLE_RATE := by norm_num [cfgQ]
  ⟨hc, hr, (alpha_formula cfgQ hc hr).2.2.2.2, by norm_num [alpha, RC, dt, cfgQ]⟩

/-! ## The sums of a window -/

/-- A call of `loop` either leaves the state alone or accepts a number that differs
from the last raw value, in a sampling window. -/
theorem loop_cases (cfg : Config α) (st : State α) (src : Option (Reading α)) :
    loop cfg st src = st
    ∨ ∃ v : α, src = some (Reading.num v) ∧ st.is_sampling_ = true ∧ v ≠ st.last_value_ := by
  by_cases hs : st.is_sampling_ = true
  · match src with
    | none =>
      left
      unfold loop
      simp only [hs, Bool.not_true, Bool.false_eq_true, if_false]
    | some Reading.nan =>
      left
      unfold loop
      simp only [hs, Bool.not_true, Bool.false_eq_true, if_false]
    | some (Reading.num v) =>
      by_cases hv : v = st.last_value_
      · exact Or.inl (loop_of_eq cfg st v hv)
      · exact Or.inr ⟨v, rfl, hs, hv⟩
  · left
    exact loop_of_idle cfg st src (by simpa using hs)

/-- The invariant of the two sums: they are `0` as long as nothing was accepted, and
`sum^2 <= sample_count * sum_of_squares`. -/
theorem loop_sums_invariant (cfg : Config α) (st : State α) (src : Option (Reading α))
    (h0 : st.num_samples_ = 0 → st.sample_sum_ = 0 ∧ st.sample_squared_sum_ = 0)
    (hcs : st.sample_sum_ ^ 2 ≤ (st.num_samples_ : α) * st.sample_squared_sum_) :
    ((loop cfg st src).num_samples_ = 0 →
        (loop cfg st src).sample_sum_ = 0 ∧ (loop cfg st src).sample_squared_sum_ = 0)
    ∧ (loop cfg st src).sample_sum_ ^ 2
        ≤ ((loop cfg st src).num_samples_ : α) * (loop cfg st src).sample_squared_sum_ := by
  rcases loop_cases cfg st src with h | ⟨v, hsrc, hs, hv⟩
  · rw [h]
    exact ⟨h0, hcs⟩
  · rw [hsrc, loop_of_ne cfg st v hs hv]
    refine ⟨fun hz => absurd hz (Nat.succ_ne_zero _), ?_⟩
    simp only [Nat.cast_add, Nat.cast_one]
    generalize st.g_prevOutput + alpha cfg * (v - st.g_prevOutput) = f
    rcases Nat.eq_zero_or_pos st.num_samples_ with hn | hn
    · rw [hn, (h0 hn).1, (h0 hn).2]
      simp only [Nat.cast_zero, zero_add, one_mul]
      rw [sq]
    · have hpos : (0 : α) < (st.num_samples_ : α) := Nat.cast_pos.mpr hn
      have key : (st.num_samples_ : α) * (st.sample_sum_ + f) ^ 2
          ≤ (st.num_samples_ : α)
            * (((st.num_samples_ : α) + 1) * (st.sample_squared_sum_ + f * f)) := by
        nlinarith [sq_nonneg (st.sample_sum_ - (st.num_samples_ : α) * f),
          mul_nonneg hpos.le (sub_nonneg.mpr hcs), sub_nonneg.mpr hcs]
      exact le_of_mul_le_mul_left key hpos

/-- The invariant of the two sums holds after `update` and any sequence of `loop`
calls. -/
theorem foldl_loop_sums_invariant (cfg : Config α) (srcs : List (Option (Reading α))) :
    ∀ st : State α,
      (st.num_samples_ = 0 → st.sample_sum_ = 0 ∧ st.sample_squared_sum_ = 0) →
      st.sample_sum_ ^ 2 ≤ (st.num_samples_ : α) * st.sample_squared_sum_ →
      (srcs.foldl (loop cfg) st).sample_sum_ ^ 2
        ≤ ((srcs.foldl (loop cfg) st).num_samples_ : α)
          * (srcs.foldl (loop cfg) st).sample_squared_sum_ := by
  induction srcs with
  | nil =>
    intro st _ hcs
    exact hcs
  | cons src srcs ih =>
    intro st h0 hcs
    have h := loop_sums_invariant cfg st src h0 hcs
    rw [List.foldl_cons]
    exact ih (loop cfg st src) h.1 h.2

/-- C16: in exact arithmetic, every state reached from `update` by any finite sequence
of `loop` calls (whatever each source returns) satisfies
`sample_count * sum_of_squares >= sum^2`; when `sample_count > 0` this is
`sum_of_squares / sample_count >= (sum / sample_count)^2`, and the argument the
callback hands to the square root is then the variance itself: the clamp at zero does
not change it. -/
theorem reachable_sums_cauchy_schwarz (cfg : Config α) (st0 : State α)
    (srcs : List (Option (Reading α))) :
    ((srcs.foldl (loop cfg) (update cfg st0)).num_samples_ : α)
        * (srcs.foldl (loop cfg) (update cfg st0)).sample_squared_sum_
      ≥ (srcs.foldl (loop cfg) (update cfg st0)).sample_sum_ ^ 2
    ∧ (0 < (srcs.foldl (loop cfg) (update cfg st0)).num_samples_ →
        (srcs.foldl (loop cfg) (update cfg st0)).sample_squared_sum_
            / ((srcs.foldl (loop cfg) (update cfg st0)).num_samples_ : α)
          ≥ ((srcs.foldl (loop cfg) (update cfg st0)).sample_sum_
            / ((srcs.foldl (loop cfg) (update cfg st0)).num_samples_ : α)) ^ 2
        ∧ rms_diff (srcs.foldl (loop cfg) (update cfg st0))
          = (srcs.foldl (loop cfg) (update cfg st0)).sample_squared_sum_
              / ((srcs.foldl (loop cfg) (update cfg st0)).num_samples_ : α)
            - ((srcs.foldl (loop cfg) (update cfg st0)).sample_sum_
              / ((srcs.foldl (loop cfg) (update cfg st0)).num_samples_ : α)) ^ 2) := by
  have hcs := foldl_loop_sums_invariant cfg srcs (update cfg st0)
    (fun _ => ⟨rfl, rfl⟩) (by simp [update])
  generalize srcs.foldl (loop cfg) (update cfg st0) = st at hcs
  refine ⟨hcs, fun hn => ?_⟩
  have hpos : (0 : α) < (st.num_samples_ : α) := Nat.cast_pos.mpr hn
  have hdiv : (st.sample_sum_ / (st.num_samples_ : α)) ^ 2
      ≤ st.sample_squared_sum_ / (st.num_samples_ : α) := by
    rw [div_pow, div_le_div_iff₀ (pow_pos hpos 2) hpos]
    nlinarith [mul_le_mul_of_nonneg_left hcs hpos.le]
  refine ⟨hdiv, ?_⟩
  rw [rms_diff_eq_max]
  exact max_eq_right (sub_nonneg.mpr hdiv)

/-- Witness of C16: after `update`, the four calls of `srcsMixed` accept two samples,
and the variance of the window is not negative. -/
theorem reachable_sums_cauchy_schwarz_witness :
    0 < (srcsMixed.foldl (loop cfgQ) (update cfgQ initial)).num_samples_
    ∧ (srcsMixed.foldl (loop cfgQ) (update cfgQ initial)).sample_squared_sum_
          / ((srcsMixed.foldl (loop cfgQ) (update cfgQ initial)).num_samples_ : ℚ)
        ≥ ((srcsMixed.foldl (loop cfgQ) (update cfgQ initial)).sample_sum_
          / ((srcsMixed.foldl (loop cfgQ) (update cfgQ initial)).num_samples_ : ℚ)) ^ 2 :=
  have hn : 0 < (srcsMixed.foldl (loop cfgQ) (update cfgQ initial)).num_samples_ := by
    simp [srcsMixed, loop, lowPassFilter, update, initial]
  ⟨hn, ((reachable_sums_cauchy_schwarz cfgQ initial srcsMixed).2 hn).1⟩

/-! ## Running sums against the two-pass definition -/

/-- In a sampling window the count and the two sums grow by the number, the sum and the
sum of squares of the filtered values of the accepted samples. -/
theorem poll_all_sums (cfg : Config α) (rs : List (Reading α)) :
    ∀ st : State α, st.is_sampling_ = true →
      (poll_all cfg st rs).num_samples_ = st.num_samples_
          + (spec_filtered_values (alpha cfg) st.last_value_ st.g_prevOutput rs).length
      ∧ (poll_all cfg st rs).sample_sum_ = st.sample_sum_
          + (spec_filtered_values (alpha cfg) st.last_value_ st.g_prevOutput rs).sum
      ∧ (poll_all cfg st rs).sample_squared_sum_ = st.sample_squared_sum_
          + ((spec_filtered_values (alpha cfg) st.last_value_ st.g_prevOutput rs).map
              (fun f => f * f)).sum := by
  induction rs with
  | nil =>
    intro st _
    simp [poll_all, spec_filtered_values]
  | cons r rs ih =>
    intro st hs
    cases r with
    | nan =>
      have hl : loop cfg st (some Reading.nan) = st := by
        unfold loop
        simp only [hs, Bool.not_true, Bool.false_eq_true, if_false]
      rw [poll_all_cons, hl]
      simp only [spec_filtered_values]
      exact ih st hs
    | num v =>
      by_cases hv : v = st.last_value_
      · rw [poll_all_cons, loop_of_eq cfg st v hv]
        simp only [spec_filtered_values, if_pos hv]
        exact ih st hs
      · have hl := loop_of_ne cfg st v hs hv
        have hs1 : (loop cfg st (some (Reading.num v))).is_sampling_ = true := by
          rw [hl]
          exact hs
        have hrec := ih (loop cfg st (some (Reading.num v))) hs1
        rw [poll_all_cons]
        simp only [spec_filtered_values, if_neg hv, List.length_cons, List.sum_cons,
          List.map_cons]
        rw [hl] at hrec ⊢
        simp only [] at hrec ⊢
        refine ⟨?_, ?_, ?_⟩
        · rw [hrec.1]
          omega
        · rw [hrec.2.1]
          ring
        · rw [hrec.2.2]
          ring

/-- The squared deviations from any value `m`, summed, in terms of the two running
sums. -/
theorem sum_sq_deviation (fs : List α) (m : α) :
    (fs.map (fun f => (f - m) ^ 2)).sum
      = (fs.map (fun f => f * f)).sum - 2 * m * fs.sum + (fs.length : α) * m ^ 2 := by
  induction fs with
  | nil => simp
  | cons f fs ih =>
    simp only [List.map_cons, List.sum_cons, List.length_cons, Nat.cast_add, Nat.cast_one]
    rw [ih]
    ring

/-- The two-pass population variance of a non-empty list is the mean of the squares
minus the square of the mean. -/
theorem spec_population_variance_eq (fs : List α) (hn : 0 < fs.length) :
    spec_population_variance fs
      = (fs.map (fun f => f * f)).sum / (fs.length : α) - (fs.sum / (fs.length : α)) ^ 2 := by
  have hpos : (fs.length : α) ≠ 0 := Nat.cast_ne_zero.mpr (Nat.pos_iff_ne_zero.mp hn)
  unfold spec_population_variance
  rw [sum_sq_deviation]
  unfold spec_mean
  field_simp
  ring

/-- The two-pass population variance is never negative. -/
theorem spec_population_variance_nonneg (fs : List α) : 0 ≤ spec_population_variance fs := by
  unfold spec_population_variance
  apply mul_nonneg
  · exact div_nonneg zero_le_one (Nat.cast_nonneg _)
  · apply List.sum_nonneg
    intro x hx
    obtain ⟨f, _, hf⟩ := List.mem_map.mp hx
    rw [← hf]
    exact sq_nonneg _

/-- C17: running-sum RMS against the two-pass definition, in exact arithmetic.  If the
window started by `update` accepts `n >= 1` samples whose filtered values are
`fs = f_1 .. f_n`, then `sample_count = n` and the `rms_ac` of the timeout callback is
the population standard deviation of `fs`, the square root of
`(1 / n) * sum_i (f_i - m)^2` with `m = (1 / n) * sum_i f_i`; the callback publishes
the minimum-value policy applied to it (unless `sample_duration_` is `0`, in which case
it traps on its log line). -/
theorem rms_ac_eq_population_std (cfg : Config α) (st0 : State α)
    (rs : List (Reading α)) (fs : List α)
    (hfs : spec_filtered_values (alpha cfg) 0 st0.g_prevOutput rs = fs)
    (hn : 1 ≤ fs.length) :
    (poll_all cfg (update cfg st0) rs).num_samples_ = fs.length
    ∧ rms_ac cfg (poll_all cfg (update cfg st0) rs)
        = cfg.sqrt (spec_population_variance fs)
    ∧ (finish_window cfg (poll_all cfg (update cfg st0) rs)).map State.published
        = (if cfg.sample_duration_ = 0 then none
           else some ((poll_all cfg (update cfg st0) rs).published ++
            [Reading.num
              (if cfg.sqrt (spec_population_variance fs) < cfg.MIN_CURRENT
               then cfg.sqrt (spec_population_variance fs) / 10
               else cfg.sqrt (spec_population_variance fs))])) := by
  have h := poll_all_sums cfg rs (update cfg st0) rfl
  have hl : (update cfg st0).last_value_ = 0 := rfl
  have hp : (update cfg st0).g_prevOutput = st0.g_prevOutput := rfl
  have hz1 : (update cfg st0).num_samples_ = 0 := rfl
  have hz2 : (update cfg st0).sample_sum_ = 0 := rfl
  have hz3 : (update cfg st0).sample_squared_sum_ = 0 := rfl
  rw [hl, hp, hfs, hz1, hz2, hz3, Nat.zero_add, zero_add, zero_add] at h
  have hcount := h.1
  have hrms : rms_ac cfg (poll_all cfg (update cfg st0) rs)
      = cfg.sqrt (spec_population_variance fs) := by
    unfold rms_ac
    rw [rms_diff_eq_max, h.2.1, h.2.2, hcount, ← spec_population_variance_eq fs hn,
      max_eq_right (spec_population_variance_nonneg fs)]
  refine ⟨hcount, hrms, ?_⟩
  rw [finish_window_published_of_pos cfg _ (by rw [hcount]; exact hn), hrms]

/-- Witness of C17: the readings `1, 2, 1` polled after `update` are all accepted, so
the window has three filtered values. -/
theorem rms_ac_eq_population_std_witness :
    1 ≤ (spec_filtered_values (alpha cfgQ) 0 (initial : State ℚ).g_prevOutput
          rsVarying).length
    ∧ rms_ac cfgQ (poll_all cfgQ (update cfgQ initial) rsVarying)
        = cfgQ.sqrt (spec_population_variance
            (spec_filtered_values (alpha cfgQ) 0 (initial : State ℚ).g_prevOutput
              rsVarying)) :=
  have hn : 1 ≤ (spec_filtered_values (alpha cfgQ) 0 (initial : State ℚ).g_prevOutput
      rsVarying).length := by
    norm_num [spec_filtered_values, rsVarying]
  ⟨hn, (rms_ac_eq_population_std cfgQ initial rsVarying _ rfl hn).2.1⟩

/-! ## A window of zero readings -/

/-- Readings that are `NAN` or equal to the last raw value leave a state unchanged. -/
theorem poll_all_skipped (cfg : Config α) (rs : List (Reading α)) (st : State α)
    (hrs : ∀ r ∈ rs, r = Reading.num st.last_value_ ∨ r = Reading.nan) :
    poll_all cfg st rs = st := by
  induction rs with
  | nil => rfl
  | cons r rs ih =>
    have hstep : loop cfg st (some r) = st := by
      rcases hrs r (List.mem_cons_self _ _) with h | h
      · rw [h]
        exact loop_of_eq cfg st _ rfl
      · rw [h]
        rcases loop_cases cfg st (some Reading.nan) with hc | ⟨v, hv, _, _⟩
        · exact hc
        · cases hv
    rw [poll_all_cons, hstep]
    exact ih (fun z hz => hrs z (List.mem_cons_of_mem _ hz))

/-- C19: `update` sets `last_raw_value` to `0`, so a first `loop` call after `update`
whose raw reading is exactly `0` is skipped as a duplicate: the state is unchanged and
`sample_count` stays `0`.  A window in which every reading is `0` or `NAN` therefore
ends in the state `update` left, with `sample_count = 0`, and the timeout callback
publishes the missing result `NAN`, not the number `0`. -/
theorem zero_window_reports_nan (cfg : Config α) (st0 : State α)
    (rs : List (Reading α)) (hrs : ∀ r ∈ rs, r = Reading.num 0 ∨ r = Reading.nan) :
    loop cfg (update cfg st0) (some (Reading.num 0)) = update cfg st0
    ∧ (loop cfg (update cfg st0) (some (Reading.num 0))).num_samples_ = 0
    ∧ poll_all cfg (update cfg st0) rs = update cfg st0
    ∧ (poll_all cfg (update cfg st0) rs).num_samples_ = 0
    ∧ (finish_window cfg (poll_all cfg (update cfg st0) rs)).map State.published
        = some (st0.published ++ [Reading.nan])
    ∧ (finish_window cfg (poll_all cfg (update cfg st0) rs)).map State.published
        ≠ some (st0.published ++ [Reading.num 0]) := by
  have h1 : loop cfg (update cfg st0) (some (Reading.num 0)) = update cfg st0 :=
    loop_of_eq cfg (update cfg st0) 0 rfl
  have h2 : poll_all cfg (update cfg st0) rs = update cfg st0 :=
    poll_all_skipped cfg rs (update cfg st0) hrs
  have h3 : (finish_window cfg (poll_all cfg (update cfg st0) rs)).map State.published
      = some (st0.published ++ [Reading.nan]) := by
    rw [h2, finish_window_of_zero cfg (update cfg st0) rfl]
    rfl
  refine ⟨h1, ?_, h2, ?_, h3, ?_⟩
  · rw [h1]
    rfl
  · rw [h2]
    rfl
  · rw [h3]
    intro h
    have h4 := List.append_cancel_left (Option.some.inj h)
    cases h4

/-- Witness of C19: after `update`, the readings `0, NAN, 0` are all skipped and the
callback publishes `NAN`. -/
theorem zero_window_reports_nan_witness :
    (∀ r ∈ rsZeroNan, r = Reading.num 0 ∨ r = Reading.nan)
    ∧ (poll_all cfgQ (update cfgQ initial) rsZeroNan).num_samples_ = 0
    ∧ (finish_window cfgQ (poll_all cfgQ (update cfgQ initial) rsZeroNan)).map
        State.published = some [Reading.nan] :=
  have hrs : ∀ r ∈ rsZeroNan, r = Reading.num 0 ∨ r = Reading.nan := by
    simp [rsZeroNan]
  have h := zero_window_reports_nan cfgQ initial rsZeroNan hrs
  ⟨hrs, h.2.2.2.1, h.2.2.2.2.1⟩

end FilteredCtClamp
